import Mathlib

/-!
Shallow embedding of the abjad evaluator (src/src/lib.rs) and proofs of the
specification's claims about it.

The Rust code computes abjad totals in `u32`; here totals are `Nat` reduced
modulo `2 ^ 32` at each addition, mirroring `u32` wrap-around. Letter values
never exceed 1000, and carried state is assigned (not computed), so no other
reduction is needed.
-/

namespace Abjad

/-- Modulus of the Rust `u32` accumulator. -/
def two32 : Nat := 2 ^ 32

/-- The combining shaddah diacritic, U+0651. -/
def shaddahChar : Char := Char.ofNat 0x651

/-- Zero-width non-joiner, U+200C. -/
def zwnjChar : Char := Char.ofNat 0x200C

/-- Rust `char::escape_unicode` collected into a `String`: a backslash, `u`,
an opening brace, the code point in lowercase hex without leading zeros, and
a closing brace. -/
def escapeUnicode (c : Char) : String :=
  "\\u\x7b" ++ String.mk (Nat.toDigits 16 c.toNat) ++ "\x7d"

/-- Configuration struct `AbjadPrefs` from the source; all fields default to
`false` in Rust (`#[derive(Default)]`). -/
structure AbjadPrefs where
  count_shaddah : Bool
  double_alif_maddah : Bool
  ignore_lone_hamzah : Bool
  maghribi_order : Bool
deriving DecidableEq

/-- Default configuration: every toggle off. -/
def defaultPrefs : AbjadPrefs := ⟨false, false, false, false⟩

/-- Classifier `get_letter_value` from the source: the match arms are
translated in order into an if-chain; the wildcard arm returns the error
with the escaped character. -/
def getLetterValue (character : Char) (last_value : Nat)
    (count_shaddah double_alif_maddah ignore_lone_hamzah maghribi_order : Bool) :
    Except String Nat :=
  if character = 'ا' ∨ character = 'أ' ∨ character = 'إ' ∨ character = 'ٱ' then .ok 1
  else if character = 'آ' then .ok (if double_alif_maddah then 2 else 1)
  else if character = 'ء' then .ok (if ignore_lone_hamzah then 0 else 1)
  else if character = 'ب' ∨ character = 'پ' then .ok 2
  else if character = 'ج' ∨ character = 'چ' then .ok 3
  else if character = 'د' then .ok 4
  else if character = 'ه' ∨ character = 'ة' ∨ character = 'ۀ' then .ok 5
  else if character = 'و' ∨ character = 'ؤ' then .ok 6
  else if character = 'ز' ∨ character = 'ژ' then .ok 7
  else if character = 'ح' then .ok 8
  else if character = 'ط' then .ok 9
  else if character = 'ي' ∨ character = 'ى' ∨ character = 'ئ' ∨ character = 'ی' then .ok 10
  else if character = 'ك' ∨ character = 'ک' ∨ character = 'گ' then .ok 20
  else if character = 'ل' then .ok 30
  else if character = 'م' then .ok 40
  else if character = 'ن' then .ok 50
  else if character = 'س' then .ok (if maghribi_order then 300 else 60)
  else if character = 'ع' then .ok 70
  else if character = 'ف' then .ok 80
  else if character = 'ص' then .ok (if maghribi_order then 60 else 90)
  else if character = 'ق' then .ok 100
  else if character = 'ر' then .ok 200
  else if character = 'ش' then .ok (if maghribi_order then 1000 else 300)
  else if character = 'ت' then .ok 400
  else if character = 'ث' then .ok 500
  else if character = 'خ' then .ok 600
  else if character = 'ذ' then .ok 700
  else if character = 'ض' then .ok (if maghribi_order then 90 else 800)
  else if character = 'ظ' then .ok (if maghribi_order then 800 else 900)
  else if character = 'غ' then .ok (if maghribi_order then 900 else 1000)
  else if character = shaddahChar then .ok (if count_shaddah then last_value else 0)
  else if character = ' ' ∨ character = zwnjChar then .ok 0
  else .error ("Unrecognized character: " ++ escapeUnicode character)

/-- Loop body shared by `abjad` (best-effort mode): the state is the pair
`(abjad_total, last_value)`; on `Ok` the value is added (with `u32`
wrap-around) and becomes the carried value, on `Err` the total is kept and
the carried value resets to 0. -/
def abjadStep (prefs : AbjadPrefs) (st : Nat × Nat) (character : Char) : Nat × Nat :=
  match getLetterValue character st.2 prefs.count_shaddah prefs.double_alif_maddah
      prefs.ignore_lone_hamzah prefs.maghribi_order with
  | .ok new_value => ((st.1 + new_value) % two32, new_value)
  | .error _ => (st.1, 0)

/-- Best-effort evaluation over a list of characters: the `for` loop of
`abjad` as a left fold from `(0, 0)`. -/
def abjadList (input : List Char) (prefs : AbjadPrefs) : Nat :=
  (input.foldl (abjadStep prefs) (0, 0)).1

/-- Method `abjad` of `AbjadExt for &str`. -/
def abjad (input : String) (prefs : AbjadPrefs) : Nat :=
  abjadList input.data prefs

/-- Loop body of `abjad_collect_errors`: same accumulation as `abjadStep`,
but the `Err` branch pushes the escaped character onto the log. -/
def abjadCollectStep (prefs : AbjadPrefs) (st : (Nat × List String) × Nat)
    (character : Char) : (Nat × List String) × Nat :=
  match getLetterValue character st.2 prefs.count_shaddah prefs.double_alif_maddah
      prefs.ignore_lone_hamzah prefs.maghribi_order with
  | .ok new_value => (((st.1.1 + new_value) % two32, st.1.2), new_value)
  | .error _ => ((st.1.1, st.1.2 ++ [escapeUnicode character]), 0)

/-- Collecting evaluation over a list of characters. -/
def abjadCollectList (input : List Char) (prefs : AbjadPrefs) : Nat × List String :=
  (input.foldl (abjadCollectStep prefs) ((0, []), 0)).1

/-- Method `abjad_collect_errors` of `AbjadExt for &str`. -/
def abjadCollectErrors (input : String) (prefs : AbjadPrefs) : Nat × List String :=
  abjadCollectList input.data prefs

/-- Loop of `abjad_strict`: the `?` operator propagates the first
classification error, aborting the evaluation. -/
def abjadStrictGo (prefs : AbjadPrefs) (abjad_total last_value : Nat) :
    List Char → Except String Nat
  | [] => .ok abjad_total
  | character :: rest =>
    match getLetterValue character last_value prefs.count_shaddah prefs.double_alif_maddah
        prefs.ignore_lone_hamzah prefs.maghribi_order with
    | .ok new_value => abjadStrictGo prefs ((abjad_total + new_value) % two32) new_value rest
    | .error e => .error e

/-- Method `abjad_strict` of `AbjadExt for &str`. -/
def abjadStrict (input : String) (prefs : AbjadPrefs) : Except String Nat :=
  abjadStrictGo prefs 0 0 input.data

/-- A character is recognized when the classifier does not take its wildcard
error arm; the arm taken depends only on the character, so the probe
arguments are immaterial. -/
def isRecognized (character : Char) : Bool :=
  match getLetterValue character 0 false false false false with
  | .ok _ => true
  | .error _ => false

/-- Letter characters of the classifier's 44 letter-form arms, in source
order (excluding the shaddah, space and zwnj arms). -/
def mappedLetters : List Char :=
  ['ا', 'أ', 'إ', 'ٱ', 'آ', 'ء', 'ب', 'پ', 'ج', 'چ', 'د', 'ه', 'ة', 'ۀ', 'و', 'ؤ',
   'ز', 'ژ', 'ح', 'ط', 'ي', 'ى', 'ئ', 'ی', 'ك', 'ک', 'گ', 'ل', 'م', 'ن', 'س', 'ع',
   'ف', 'ص', 'ق', 'ر', 'ش', 'ت', 'ث', 'خ', 'ذ', 'ض', 'ظ', 'غ']

def recognizedChars : List Char := mappedLetters ++ [shaddahChar, ' ', zwnjChar]

/-- The 28 base Arabic letters, in the abjadi order used by the test suite. -/
def baseLetters : List Char :=
  ['ا', 'ب', 'ج', 'د', 'ه', 'و', 'ز', 'ح', 'ط', 'ي', 'ك', 'ل', 'م', 'ن', 'س', 'ع',
   'ف', 'ص', 'ق', 'ر', 'ش', 'ت', 'ث', 'خ', 'ذ', 'ض', 'ظ', 'غ']

/-- Separators recognized by the classifier: space and zero-width non-joiner. -/
def isSeparatorChar (c : Char) : Bool := c = ' ' || c = zwnjChar

/-- Value the classifier assigns to a character under a configuration, probed
with carried state 0; unrecognized characters give 0. -/
def charVal (prefs : AbjadPrefs) (c : Char) : Nat :=
  match getLetterValue c 0 prefs.count_shaddah prefs.double_alif_maddah
      prefs.ignore_lone_hamzah prefs.maghribi_order with
  | .ok v => v
  | .error _ => 0

/-! Sanity checks: the embedding reproduces the repository's test suite. -/

lemma sanity_latin : abjad "the quick brown fox" defaultPrefs = 0 := by rfl

lemma sanity_latin_report :
    (abjadCollectErrors "the quick brown fox" defaultPrefs).2.length = 16 := by rfl

lemma sanity_mixture : abjad "روح الله tapdancing خمینی" defaultPrefs = 990 := by rfl

lemma sanity_vahshi : abjadStrict "وفات وحشی مسکین" defaultPrefs = .ok 991 := by rfl

lemma sanity_humayun : abjadStrict "همایون پادشاه از بام افتاد" defaultPrefs = .ok 962 := by rfl

lemma sanity_zwnj : abjadStrict "عادت می‌کنیم" defaultPrefs = .ok 645 := by rfl

lemma sanity_shaddah :
    abjadStrict "رئیس مؤسّس دانشگاه" ⟨true, false, false, false⟩ = .ok 887 := by rfl

lemma sanity_tammamtu : abjadStrict "قد تمّمته" defaultPrefs = .ok 989 := by rfl

lemma sanity_baha_count : abjadStrict "بهاء" defaultPrefs = .ok 9 := by rfl

lemma sanity_baha_ignore : abjadStrict "بهاء" ⟨false, false, true, false⟩ = .ok 8 := by rfl

lemma sanity_escape : escapeUnicode 'x' = "\\u\x7b78\x7d" := by rfl

/-! Classifier shape lemmas. The 44 letter forms of the match, in source
order, and the full recognized set (letters, shaddah, space, zwnj). -/

lemma getLetterValue_shaddah (lv : Nat) (cs dam ilh mg : Bool) :
    getLetterValue shaddahChar lv cs dam ilh mg = .ok (if cs then lv else 0) := by
  rfl

lemma getLetterValue_error_of_not_mem (c : Char) (h : c ∉ recognizedChars) (lv : Nat)
    (cs dam ilh mg : Bool) :
    getLetterValue c lv cs dam ilh mg =
      Except.error ("Unrecognized character: " ++ escapeUnicode c) := by
  unfold getLetterValue
  rw [if_neg (by rintro (rfl | rfl | rfl | rfl) <;> exact h (by decide))]
  rw [if_neg (by rintro rfl; exact h (by decide))]
  rw [if_neg (by rintro rfl; exact h (by decide))]
  rw [if_neg (by rintro (rfl | rfl) <;> exact h (by decide))]
  rw [if_neg (by rintro (rfl | rfl) <;> exact h (by decide))]
  rw [if_neg (by rintro rfl; exact h (by decide))]
  rw [if_neg (by rintro (rfl | rfl | rfl) <;> exact h (by decide))]
  rw [if_neg (by rintro (rfl | rfl) <;> exact h (by decide))]
  rw [if_neg (by rintro (rfl | rfl) <;> exact h (by decide))]
  rw [if_neg (by rintro rfl; exact h (by decide))]
  rw [if_neg (by rintro rfl; exact h (by decide))]
  rw [if_neg (by rintro (rfl | rfl | rfl | rfl) <;> exact h (by decide))]
  rw [if_neg (by rintro (rfl | rfl | rfl) <;> exact h (by decide))]
  rw [if_neg (by rintro rfl; exact h (by decide))]
  rw [if_neg (by rintro rfl; exact h (by decide))]
  rw [if_neg (by rintro rfl; exact h (by decide))]
  rw [if_neg (by rintro rfl; exact h (by decide))]
  rw [if_neg (by rintro rfl; exact h (by decide))]
  rw [if_neg (by rintro rfl; exact h (by decide))]
  rw [if_neg (by rintro rfl; exact h (by decide))]
  rw [if_neg (by rintro rfl; exact h (by decide))]
  rw [if_neg (by rintro rfl; exact h (by decide))]
  rw [if_neg (by rintro rfl; exact h (by decide))]
  rw [if_neg (by rintro rfl; exact h (by decide))]
  rw [if_neg (by rintro rfl; exact h (by decide))]
  rw [if_neg (by rintro rfl; exact h (by decide))]
  rw [if_neg (by rintro rfl; exact h (by decide))]
  rw [if_neg (by rintro rfl; exact h (by decide))]
  rw [if_neg (by rintro rfl; exact h (by decide))]
  rw [if_neg (by rintro rfl; exact h (by decide))]
  rw [if_neg (by rintro rfl; exact h (by decide))]
  rw [if_neg (by rintro (rfl | rfl) <;> exact h (by decide))]

lemma getLetterValue_ok_of_mem (c : Char) (h : c ∈ recognizedChars) (lv : Nat)
    (cs dam ilh mg : Bool) :
    ∃ v, getLetterValue c lv cs dam ilh mg = Except.ok v := by
  simp only [recognizedChars, mappedLetters, List.mem_append, List.mem_cons,
    List.not_mem_nil, or_false, or_assoc] at h
  rcases h with rfl | rfl | rfl | rfl | rfl | rfl | rfl | rfl | rfl | rfl | rfl | rfl |
    rfl | rfl | rfl | rfl | rfl | rfl | rfl | rfl | rfl | rfl | rfl | rfl | rfl | rfl |
    rfl | rfl | rfl | rfl | rfl | rfl | rfl | rfl | rfl | rfl | rfl | rfl | rfl | rfl |
    rfl | rfl | rfl | rfl | rfl | rfl | rfl <;> exact ⟨_, rfl⟩

lemma isRecognized_iff_mem (c : Char) : isRecognized c = true ↔ c ∈ recognizedChars := by
  by_cases hm : c ∈ recognizedChars
  · obtain ⟨v, hv⟩ := getLetterValue_ok_of_mem c hm 0 false false false false
    simp [isRecognized, hv, hm]
  · have he := getLetterValue_error_of_not_mem c hm 0 false false false false
    simp [isRecognized, he, hm]

lemma getLetterValue_ok_of_recognized (c : Char) (lv : Nat) (cs dam ilh mg : Bool)
    (h : isRecognized c = true) :
    ∃ v, getLetterValue c lv cs dam ilh mg = Except.ok v :=
  getLetterValue_ok_of_mem c ((isRecognized_iff_mem c).mp h) lv cs dam ilh mg

lemma getLetterValue_error_of_not_recognized (c : Char) (lv : Nat) (cs dam ilh mg : Bool)
    (h : isRecognized c = false) :
    getLetterValue c lv cs dam ilh mg =
      Except.error ("Unrecognized character: " ++ escapeUnicode c) :=
  getLetterValue_error_of_not_mem c
    (fun hm => by rw [(isRecognized_iff_mem c).mpr hm] at h; cases h) lv cs dam ilh mg

lemma getLetterValue_mem_indep (c : Char) (h : c ∈ mappedLetters) (lv lv' : Nat)
    (cs cs' dam ilh mg : Bool) :
    getLetterValue c lv cs dam ilh mg = getLetterValue c lv' cs' dam ilh mg := by
  simp only [mappedLetters, List.mem_cons, List.not_mem_nil, or_false] at h
  rcases h with rfl | rfl | rfl | rfl | rfl | rfl | rfl | rfl | rfl | rfl | rfl | rfl |
    rfl | rfl | rfl | rfl | rfl | rfl | rfl | rfl | rfl | rfl | rfl | rfl | rfl | rfl |
    rfl | rfl | rfl | rfl | rfl | rfl | rfl | rfl | rfl | rfl | rfl | rfl | rfl | rfl |
    rfl | rfl | rfl | rfl <;> rfl

lemma getLetterValue_mem_le (c : Char) (h : c ∈ mappedLetters) (lv : Nat)
    (cs dam ilh mg : Bool) (v : Nat)
    (hv : getLetterValue c lv cs dam ilh mg = Except.ok v) : v ≤ 1000 := by
  simp only [mappedLetters, List.mem_cons, List.not_mem_nil, or_false] at h
  rcases h with rfl | rfl | rfl | rfl | rfl | rfl | rfl | rfl | rfl | rfl | rfl | rfl |
    rfl | rfl | rfl | rfl | rfl | rfl | rfl | rfl | rfl | rfl | rfl | rfl | rfl | rfl |
    rfl | rfl | rfl | rfl | rfl | rfl | rfl | rfl | rfl | rfl | rfl | rfl | rfl | rfl |
    rfl | rfl | rfl | rfl <;>
    (injection hv with hv) <;>
    first
      | omega
      | (split_ifs at hv <;> omega)

/-! Claim C1: best-effort total equals the collecting total. -/

lemma collect_total_eq_abjad (prefs : AbjadPrefs) :
    ∀ (l : List Char) (t : Nat) (errs : List String) (last : Nat),
      (l.foldl (abjadCollectStep prefs) ((t, errs), last)).1.1 =
        (l.foldl (abjadStep prefs) (t, last)).1 := by
  intro l
  induction l with
  | nil => intro t errs last; rfl
  | cons c rest ih =>
    intro t errs last
    simp only [List.foldl_cons]
    cases h : getLetterValue c last prefs.count_shaddah prefs.double_alif_maddah
        prefs.ignore_lone_hamzah prefs.maghribi_order with
    | ok v =>
      simp only [abjadCollectStep, abjadStep, h]
      exact ih _ _ _
    | error e =>
      simp only [abjadCollectStep, abjadStep, h]
      exact ih _ _ _

/-- C1: for every input string and configuration, the best-effort evaluation
`abjad` returns the same total as the first component of the collecting
evaluation `abjad_collect_errors`. -/
theorem abjad_eq_abjadCollectErrors_total (s : String) (prefs : AbjadPrefs) :
    abjad s prefs = (abjadCollectErrors s prefs).1 := by
  unfold abjad abjadCollectErrors abjadList abjadCollectList
  exact (collect_total_eq_abjad prefs s.data 0 [] 0).symm

/-! Claim C3: strict mode succeeds on fully recognized input and agrees with
best-effort mode. -/

lemma strictGo_eq_fold (prefs : AbjadPrefs) :
    ∀ (l : List Char), (∀ c ∈ l, isRecognized c = true) → ∀ (t last : Nat),
      abjadStrictGo prefs t last l = .ok ((l.foldl (abjadStep prefs) (t, last)).1) := by
  intro l
  induction l with
  | nil => intro _ t last; rfl
  | cons c rest ih =>
    intro hall t last
    obtain ⟨v, hv⟩ := getLetterValue_ok_of_recognized c last prefs.count_shaddah
      prefs.double_alif_maddah prefs.ignore_lone_hamzah prefs.maghribi_order
      (hall c (by simp))
    simp only [abjadStrictGo, List.foldl_cons, abjadStep, hv]
    exact ih (fun d hd => hall d (by simp [hd])) _ _

/-- C3: for every input string made solely of recognized characters and every
configuration, `abjad_strict` succeeds and returns the best-effort total. -/
theorem abjadStrict_ok_of_all_recognized (s : String) (prefs : AbjadPrefs)
    (h : ∀ c ∈ s.data, isRecognized c = true) :
    abjadStrict s prefs = .ok (abjad s prefs) :=
  strictGo_eq_fold prefs s.data h 0 0

/-- C3 witness: the all-recognized string "بهاء" under the default
configuration. -/
theorem abjadStrict_ok_of_all_recognized_witness :
    abjadStrict "بهاء" defaultPrefs = .ok (abjad "بهاء" defaultPrefs) :=
  abjadStrict_ok_of_all_recognized "بهاء" defaultPrefs (by decide)

/-! Claim C2: strict mode fails on the first unrecognized character. -/

lemma strictGo_error_first (prefs : AbjadPrefs) :
    ∀ (l : List Char) (t last : Nat) (c : Char),
      l.find? (fun d => !isRecognized d) = some c →
      abjadStrictGo prefs t last l =
        .error ("Unrecognized character: " ++ escapeUnicode c) := by
  intro l
  induction l with
  | nil => intro t last c h; simp at h
  | cons d rest ih =>
    intro t last c h
    cases hr : isRecognized d with
    | true =>
      rw [List.find?_cons_of_neg _ (by simp [hr])] at h
      obtain ⟨v, hv⟩ := getLetterValue_ok_of_recognized d last prefs.count_shaddah
        prefs.double_alif_maddah prefs.ignore_lone_hamzah prefs.maghribi_order hr
      simp only [abjadStrictGo, hv]
      exact ih _ _ _ h
    | false =>
      rw [List.find?_cons_of_pos _ (by simp [hr])] at h
      obtain rfl : d = c := by injection h
      have he := getLetterValue_error_of_not_recognized d last prefs.count_shaddah
        prefs.double_alif_maddah prefs.ignore_lone_hamzah prefs.maghribi_order hr
      simp only [abjadStrictGo, he]

/-- C2: for every input string containing at least one unrecognized character
and every configuration, `abjad_strict` returns an error, and the escaped
character in the error message is the first unrecognized character in
iteration order; no partial total is returned. -/
theorem abjadStrict_reports_first_unrecognized (s : String) (prefs : AbjadPrefs)
    (h : ∃ c ∈ s.data, isRecognized c = false) :
    ∃ c, s.data.find? (fun d => !isRecognized d) = some c ∧ isRecognized c = false ∧
      abjadStrict s prefs = .error ("Unrecognized character: " ++ escapeUnicode c) := by
  have hs : (s.data.find? (fun d => !isRecognized d)).isSome := by
    rw [List.find?_isSome]
    obtain ⟨c, hc, hf⟩ := h
    exact ⟨c, hc, by simp [hf]⟩
  obtain ⟨c, hc⟩ := Option.isSome_iff_exists.mp hs
  have hp := List.find?_some hc
  refine ⟨c, hc, ?_, strictGo_error_first prefs s.data 0 0 c hc⟩
  simpa using hp

/-- C2 witness: the single Latin letter "x" under the default configuration. -/
theorem abjadStrict_reports_first_unrecognized_witness :
    ∃ c, (String.data "x").find? (fun d => !isRecognized d) = some c ∧
      isRecognized c = false ∧
      abjadStrict "x" defaultPrefs =
        .error ("Unrecognized character: " ++ escapeUnicode c) :=
  abjadStrict_reports_first_unrecognized "x" defaultPrefs (by decide)

/-! Claim C4 is refuted by the code: with `count_shaddah = true` the shaddah
arm returns `last_value`, and the loop then assigns `last_value = new_value`,
so the carried state is NOT reset to 0 after the diacritic. -/

/-- C4 counterexample: evaluating "بّ" (beh then shaddah) with
`count_shaddah = true`, the carried state immediately after the shaddah is
processed is 2 (the value of beh), not 0. -/
theorem shaddah_reset_counterexample :
    ¬ (List.foldl (abjadStep ⟨true, false, false, false⟩) (0, 0)
        ['ب', shaddahChar]).2 = 0 := by decide

/-- C4 (amended): in every evaluation mode and configuration, immediately
after the doubling diacritic is processed the carried state equals the
diacritic's own contribution: 0 when `count_shaddah` is false, but the
previous carried value when `count_shaddah` is true — so it is reset to 0
only in the former case or when the previous value was already 0. -/
theorem shaddah_carried_state_amended (prefs : AbjadPrefs) (total last : Nat)
    (errs : List String) (rest : List Char) :
    abjadStep prefs (total, last) shaddahChar =
      ((total + (if prefs.count_shaddah then last else 0)) % two32,
        if prefs.count_shaddah then last else 0) ∧
    abjadCollectStep prefs ((total, errs), last) shaddahChar =
      (((total + (if prefs.count_shaddah then last else 0)) % two32, errs),
        if prefs.count_shaddah then last else 0) ∧
    abjadStrictGo prefs total last (shaddahChar :: rest) =
      abjadStrictGo prefs ((total + (if prefs.count_shaddah then last else 0)) % two32)
        (if prefs.count_shaddah then last else 0) rest := by
  refine ⟨?_, ?_, ?_⟩ <;>
    simp only [abjadStep, abjadCollectStep, abjadStrictGo, getLetterValue_shaddah]

/-! Claim C5: a letter of value V followed by the shaddah yields 2 * V with
`count_shaddah = true` and V with `count_shaddah = false`. -/

/-- C5: for every recognized letter whose configured value is V, the
two-character string of the letter followed by the doubling diacritic
evaluates to `2 * V` when `count_shaddah = true` and to `V` when
`count_shaddah = false`. -/
theorem letter_shaddah_doubling (dam ilh mg : Bool) (c : Char) (V : Nat)
    (hmem : c ∈ mappedLetters)
    (hV : getLetterValue c 0 false dam ilh mg = Except.ok V) :
    abjad (String.mk [c, shaddahChar]) ⟨true, dam, ilh, mg⟩ = 2 * V ∧
    abjad (String.mk [c, shaddahChar]) ⟨false, dam, ilh, mg⟩ = V := by
  have hVle : V ≤ 1000 := getLetterValue_mem_le c hmem 0 false dam ilh mg V hV
  have h1 : ∀ (lv : Nat) (cs : Bool), getLetterValue c lv cs dam ilh mg = Except.ok V :=
    fun lv cs => (getLetterValue_mem_indep c hmem lv 0 cs false dam ilh mg).trans hV
  have hm : two32 = 4294967296 := rfl
  constructor
  · show (List.foldl (abjadStep ⟨true, dam, ilh, mg⟩) (0, 0) [c, shaddahChar]).1 = 2 * V
    simp only [List.foldl_cons, List.foldl_nil, abjadStep, h1, getLetterValue_shaddah]
    simp only [hm, if_true, Bool.false_eq_true, if_false]
    omega
  · show (List.foldl (abjadStep ⟨false, dam, ilh, mg⟩) (0, 0) [c, shaddahChar]).1 = V
    simp only [List.foldl_cons, List.foldl_nil, abjadStep, h1, getLetterValue_shaddah]
    simp only [hm, if_true, Bool.false_eq_true, if_false]
    omega

/-- C5 witness: beh (value 2) followed by the shaddah. -/
theorem letter_shaddah_doubling_witness :
    abjad (String.mk ['ب', shaddahChar]) ⟨true, false, false, false⟩ = 2 * 2 ∧
    abjad (String.mk ['ب', shaddahChar]) ⟨false, false, false, false⟩ = 2 :=
  letter_shaddah_doubling false false false 'ب' 2 (by decide) (by rfl)

/-! Claim C6: the full value table, Mashriqi and Maghribi. -/

/-- C6: the classifier assigns to every recognized letter exactly the
spec's Mashriqi numeral (with the alif-maddah and lone-hamzah toggles), and
under Maghribi order exactly the six letters seen, sad, sheen, dad, zah,
ghain change value (to 300, 60, 1000, 90, 800, 900 respectively) while every
other letter keeps its Mashriqi value (stated below with the order flag left
free). -/
theorem letter_value_table (lv : Nat) (cs dam ilh mg : Bool) :
    getLetterValue 'ا' lv cs dam ilh mg = .ok 1 ∧
    getLetterValue 'أ' lv cs dam ilh mg = .ok 1 ∧
    getLetterValue 'إ' lv cs dam ilh mg = .ok 1 ∧
    getLetterValue 'ٱ' lv cs dam ilh mg = .ok 1 ∧
    getLetterValue 'آ' lv cs dam ilh mg = .ok (if dam then 2 else 1) ∧
    getLetterValue 'ء' lv cs dam ilh mg = .ok (if ilh then 0 else 1) ∧
    getLetterValue 'ب' lv cs dam ilh mg = .ok 2 ∧
    getLetterValue 'پ' lv cs dam ilh mg = .ok 2 ∧
    getLetterValue 'ج' lv cs dam ilh mg = .ok 3 ∧
    getLetterValue 'چ' lv cs dam ilh mg = .ok 3 ∧
    getLetterValue 'د' lv cs dam ilh mg = .ok 4 ∧
    getLetterValue 'ه' lv cs dam ilh mg = .ok 5 ∧
    getLetterValue 'ة' lv cs dam ilh mg = .ok 5 ∧
    getLetterValue 'ۀ' lv cs dam ilh mg = .ok 5 ∧
    getLetterValue 'و' lv cs dam ilh mg = .ok 6 ∧
    getLetterValue 'ؤ' lv cs dam ilh mg = .ok 6 ∧
    getLetterValue 'ز' lv cs dam ilh mg = .ok 7 ∧
    getLetterValue 'ژ' lv cs dam ilh mg = .ok 7 ∧
    getLetterValue 'ح' lv cs dam ilh mg = .ok 8 ∧
    getLetterValue 'ط' lv cs dam ilh mg = .ok 9 ∧
    getLetterValue 'ي' lv cs dam ilh mg = .ok 10 ∧
    getLetterValue 'ى' lv cs dam ilh mg = .ok 10 ∧
    getLetterValue 'ئ' lv cs dam ilh mg = .ok 10 ∧
    getLetterValue 'ی' lv cs dam ilh mg = .ok 10 ∧
    getLetterValue 'ك' lv cs dam ilh mg = .ok 20 ∧
    getLetterValue 'ک' lv cs dam ilh mg = .ok 20 ∧
    getLetterValue 'گ' lv cs dam ilh mg = .ok 20 ∧
    getLetterValue 'ل' lv cs dam ilh mg = .ok 30 ∧
    getLetterValue 'م' lv cs dam ilh mg = .ok 40 ∧
    getLetterValue 'ن' lv cs dam ilh mg = .ok 50 ∧
    getLetterValue 'ع' lv cs dam ilh mg = .ok 70 ∧
    getLetterValue 'ف' lv cs dam ilh mg = .ok 80 ∧
    getLetterValue 'ق' lv cs dam ilh mg = .ok 100 ∧
    getLetterValue 'ر' lv cs dam ilh mg = .ok 200 ∧
    getLetterValue 'ت' lv cs dam ilh mg = .ok 400 ∧
    getLetterValue 'ث' lv cs dam ilh mg = .ok 500 ∧
    getLetterValue 'خ' lv cs dam ilh mg = .ok 600 ∧
    getLetterValue 'ذ' lv cs dam ilh mg = .ok 700 ∧
    getLetterValue 'س' lv cs dam ilh false = .ok 60 ∧
    getLetterValue 'س' lv cs dam ilh true = .ok 300 ∧
    getLetterValue 'ص' lv cs dam ilh false = .ok 90 ∧
    getLetterValue 'ص' lv cs dam ilh true = .ok 60 ∧
    getLetterValue 'ش' lv cs dam ilh false = .ok 300 ∧
    getLetterValue 'ش' lv cs dam ilh true = .ok 1000 ∧
    getLetterValue 'ض' lv cs dam ilh false = .ok 800 ∧
    getLetterValue 'ض' lv cs dam ilh true = .ok 90 ∧
    getLetterValue 'ظ' lv cs dam ilh false = .ok 900 ∧
    getLetterValue 'ظ' lv cs dam ilh true = .ok 800 ∧
    getLetterValue 'غ' lv cs dam ilh false = .ok 1000 ∧
    getLetterValue 'غ' lv cs dam ilh true = .ok 900 :=
  ⟨rfl, rfl, rfl, rfl, rfl, rfl, rfl, rfl, rfl, rfl, rfl, rfl, rfl, rfl, rfl, rfl,
   rfl, rfl, rfl, rfl, rfl, rfl, rfl, rfl, rfl, rfl, rfl, rfl, rfl, rfl, rfl, rfl,
   rfl, rfl, rfl, rfl, rfl, rfl, rfl, rfl, rfl, rfl, rfl, rfl, rfl, rfl, rfl, rfl,
   rfl, rfl⟩

/-! Claim C7: order invariance of the 28-base-letter total. -/

lemma foldl_sum_of_letters (prefs : AbjadPrefs) :
    ∀ (l : List Char), (∀ c ∈ l, c ∈ mappedLetters ∨ c = ' ' ∨ c = zwnjChar) →
      ∀ (t last : Nat), t < two32 →
      (l.foldl (abjadStep prefs) (t, last)).1 =
        (t + (l.map (charVal prefs)).sum) % two32 := by
  intro l
  induction l with
  | nil =>
    intro _ t last ht
    simp [Nat.mod_eq_of_lt ht]
  | cons c rest ih =>
    intro hall t last ht
    rcases hall c (by simp) with hm | hsep
    · have hmr : c ∈ recognizedChars := by
        unfold recognizedChars; exact List.mem_append_left _ hm
      obtain ⟨v, hv0⟩ := getLetterValue_ok_of_mem c hmr 0 prefs.count_shaddah
        prefs.double_alif_maddah prefs.ignore_lone_hamzah prefs.maghribi_order
      have hv : getLetterValue c last prefs.count_shaddah prefs.double_alif_maddah
          prefs.ignore_lone_hamzah prefs.maghribi_order = Except.ok v :=
        (getLetterValue_mem_indep c hm last 0 prefs.count_shaddah prefs.count_shaddah
          prefs.double_alif_maddah prefs.ignore_lone_hamzah prefs.maghribi_order).trans hv0
      have hcv : charVal prefs c = v := by simp [charVal, hv0]
      simp only [List.foldl_cons, abjadStep, hv, List.map_cons, List.sum_cons, hcv]
      rw [ih (fun d hd => hall d (by simp [hd])) _ _ (Nat.mod_lt _ (by decide))]
      rw [Nat.mod_add_mod, Nat.add_assoc]
    · have hv : getLetterValue c last prefs.count_shaddah prefs.double_alif_maddah
          prefs.ignore_lone_hamzah prefs.maghribi_order = Except.ok 0 := by
        rcases hsep with rfl | rfl <;> rfl
      have hcv : charVal prefs c = 0 := by
        rcases hsep with rfl | rfl <;> rfl
      simp only [List.foldl_cons, abjadStep, hv, List.map_cons, List.sum_cons, hcv,
        Nat.add_zero, Nat.zero_add, Nat.mod_eq_of_lt ht]
      exact ih (fun d hd => hall d (by simp [hd])) _ _ ht

lemma sum_charVal_filter (prefs : AbjadPrefs) :
    ∀ (l : List Char),
      ((l.filter (fun c => !isSeparatorChar c)).map (charVal prefs)).sum =
        (l.map (charVal prefs)).sum := by
  intro l
  induction l with
  | nil => rfl
  | cons c rest ih =>
    cases hs : isSeparatorChar c
    · simp [List.filter_cons, hs, ih]
    · have h0 : charVal prefs c = 0 := by
        rcases (by simpa [isSeparatorChar] using hs : c = ' ' ∨ c = zwnjChar) with
          rfl | rfl <;> rfl
      simp [List.filter_cons, hs, ih, h0]

lemma baseLetters_sum (cs dam ilh mg : Bool) :
    (baseLetters.map (charVal ⟨cs, dam, ilh, mg⟩)).sum = 5995 := by
  cases cs <;> cases dam <;> cases ilh <;> cases mg <;> decide

/-- C7: every string whose non-separator characters are exactly one instance
of each of the 28 base Arabic letters evaluates, under any setting of the
other toggles, to the same total under Mashriqi and Maghribi order, namely
5995. -/
theorem order_invariance_total (s : String) (cs dam ilh : Bool)
    (h : (s.data.filter (fun c => !isSeparatorChar c)).Perm baseLetters) :
    abjad s ⟨cs, dam, ilh, false⟩ = 5995 ∧ abjad s ⟨cs, dam, ilh, true⟩ = 5995 := by
  have hsub : ∀ d ∈ baseLetters, d ∈ mappedLetters := by decide
  have hmem : ∀ c ∈ s.data, c ∈ mappedLetters ∨ c = ' ' ∨ c = zwnjChar := by
    intro c hc
    cases hs : isSeparatorChar c
    · left
      have hcf : c ∈ s.data.filter (fun c => !isSeparatorChar c) := by
        rw [List.mem_filter]; exact ⟨hc, by simp [hs]⟩
      exact hsub c (h.mem_iff.mp hcf)
    · right; simpa [isSeparatorChar] using hs
  refine ⟨?_, ?_⟩ <;>
  · unfold abjad abjadList
    rw [foldl_sum_of_letters _ s.data hmem 0 0 (by decide)]
    rw [← sum_charVal_filter]
    rw [(h.map (charVal _)).sum_eq]
    rw [baseLetters_sum]
    decide

/-- C7 witness: the test suite's abjadi-order string. -/
theorem order_invariance_total_witness :
    abjad "ابجد هوز حطي كلمن سعفص قرشت ثخذ ضظغ" ⟨false, false, false, false⟩ = 5995 ∧
    abjad "ابجد هوز حطي كلمن سعفص قرشت ثخذ ضظغ" ⟨false, false, false, true⟩ = 5995 :=
  order_invariance_total "ابجد هوز حطي كلمن سعفص قرشت ثخذ ضظغ" false false false (by
    have he : (String.data "ابجد هوز حطي كلمن سعفص قرشت ثخذ ضظغ").filter
        (fun c => !isSeparatorChar c) = baseLetters := by decide
    exact he ▸ List.Perm.refl _)

/-! Claim C8: the collecting log is exactly the escaped unrecognized
characters, in encounter order. -/

lemma collectGo_log (prefs : AbjadPrefs) :
    ∀ (l : List Char) (t : Nat) (errs : List String) (last : Nat),
      (l.foldl (abjadCollectStep prefs) ((t, errs), last)).1.2 =
        errs ++ (l.filter (fun c => !isRecognized c)).map escapeUnicode := by
  intro l
  induction l with
  | nil => intro t errs last; simp
  | cons c rest ih =>
    intro t errs last
    cases hr : isRecognized c
    · have he := getLetterValue_error_of_not_recognized c last prefs.count_shaddah
        prefs.double_alif_maddah prefs.ignore_lone_hamzah prefs.maghribi_order hr
      simp only [List.foldl_cons, abjadCollectStep, he, List.filter_cons, hr,
        Bool.not_false, if_true, List.map_cons]
      rw [ih]
      simp
    · obtain ⟨v, hv⟩ := getLetterValue_ok_of_recognized c last prefs.count_shaddah
        prefs.double_alif_maddah prefs.ignore_lone_hamzah prefs.maghribi_order hr
      simp only [List.foldl_cons, abjadCollectStep, hv, List.filter_cons, hr,
        Bool.not_true, if_false]
      exact ih _ _ _

/-- C8: for every input string and configuration, the log returned by the
collecting evaluation is exactly the escaped forms of the unrecognized
characters (neither a mapped letter, the shaddah, space, nor zwnj) in
encounter order; in particular its length is the number of unrecognized
characters, and it is empty for fully-recognized input. -/
theorem collect_log_exact (s : String) (prefs : AbjadPrefs) :
    (abjadCollectErrors s prefs).2 =
      (s.data.filter (fun c => !isRecognized c)).map escapeUnicode ∧
    (abjadCollectErrors s prefs).2.length =
      (s.data.filter (fun c => !isRecognized c)).length := by
  have h1 : (abjadCollectErrors s prefs).2 =
      (s.data.filter (fun c => !isRecognized c)).map escapeUnicode := by
    have h := collectGo_log prefs s.data 0 [] 0
    simpa [abjadCollectErrors, abjadCollectList] using h
  exact ⟨h1, by rw [h1, List.length_map]⟩

/-! Claim C9: the basmala evaluates to 786 under the default configuration. -/

/-- C9: strict evaluation of the basmala under the default configuration
succeeds with total 786. -/
theorem basmala_default_strict :
    abjadStrict "بسم الله الرحمن الرحيم" defaultPrefs = .ok 786 := by rfl

/-! Claim C10: a shaddah at the start, or right after a separator or an
unrecognized character, contributes nothing when `count_shaddah` is on. -/

lemma foldl_total_lt (prefs : AbjadPrefs) :
    ∀ (l : List Char) (st : Nat × Nat), st.1 < two32 →
      (l.foldl (abjadStep prefs) st).1 < two32 := by
  intro l
  induction l with
  | nil => intro st h; exact h
  | cons c rest ih =>
    intro st h
    rw [List.foldl_cons]
    apply ih
    unfold abjadStep
    cases hgl : getLetterValue c st.2 prefs.count_shaddah prefs.double_alif_maddah
        prefs.ignore_lone_hamzah prefs.maghribi_order with
    | ok v => exact Nat.mod_lt _ (by decide)
    | error e => exact h

lemma abjadStep_shaddah (cs dam ilh mg : Bool) (st : Nat × Nat) :
    abjadStep ⟨cs, dam, ilh, mg⟩ st shaddahChar =
      ((st.1 + (if cs then st.2 else 0)) % two32, if cs then st.2 else 0) := by
  unfold abjadStep
  rw [getLetterValue_shaddah]

lemma abjadStep_unrecognized (prefs : AbjadPrefs) (st : Nat × Nat) (c : Char)
    (h : isRecognized c = false) : abjadStep prefs st c = (st.1, 0) := by
  unfold abjadStep
  rw [getLetterValue_error_of_not_recognized c st.2 _ _ _ _ h]

/-- C10: with `count_shaddah = true` (any other toggles), a doubling
diacritic at the start of the input, or immediately after a space, a zwnj,
or an unrecognized character, contributes 0 to the best-effort total: the
carried state at that point is 0, and deleting that shaddah does not change
the evaluation. -/
theorem shaddah_zero_after_reset (dam ilh mg : Bool) (u v : List Char)
    (h : u = [] ∨ ∃ u' d, u = u' ++ [d] ∧
      (d = ' ' ∨ d = zwnjChar ∨ isRecognized d = false)) :
    (List.foldl (abjadStep ⟨true, dam, ilh, mg⟩) (0, 0) u).2 = 0 ∧
    abjadList (u ++ shaddahChar :: v) ⟨true, dam, ilh, mg⟩ =
      abjadList (u ++ v) ⟨true, dam, ilh, mg⟩ := by
  have hlast : (List.foldl (abjadStep ⟨true, dam, ilh, mg⟩) (0, 0) u).2 = 0 := by
    rcases h with rfl | ⟨u', d, rfl, hd⟩
    · rfl
    · rw [List.foldl_append]
      rcases hd with rfl | rfl | hd
      · rfl
      · rfl
      · rw [List.foldl_cons, List.foldl_nil, abjadStep_unrecognized _ _ _ hd]
  have hlt : (List.foldl (abjadStep ⟨true, dam, ilh, mg⟩) (0, 0) u).1 < two32 :=
    foldl_total_lt _ u (0, 0) (by decide)
  have hstep : abjadStep ⟨true, dam, ilh, mg⟩
      (List.foldl (abjadStep ⟨true, dam, ilh, mg⟩) (0, 0) u) shaddahChar =
      List.foldl (abjadStep ⟨true, dam, ilh, mg⟩) (0, 0) u := by
    rw [abjadStep_shaddah]
    simp only [if_true, hlast, Nat.add_zero]
    exact Prod.ext (Nat.mod_eq_of_lt hlt) hlast.symm
  refine ⟨hlast, ?_⟩
  unfold abjadList
  rw [List.foldl_append, List.foldl_append, List.foldl_cons, hstep]

/-- C10 witness: a shaddah right after a space, with beh on both sides. -/
theorem shaddah_zero_after_reset_witness :
    (List.foldl (abjadStep ⟨true, false, false, false⟩) (0, 0) ['ب', ' ']).2 = 0 ∧
    abjadList (['ب', ' '] ++ shaddahChar :: ['ب']) ⟨true, false, false, false⟩ =
      abjadList (['ب', ' '] ++ ['ب']) ⟨true, false, false, false⟩ :=
  shaddah_zero_after_reset false false false ['ب', ' '] ['ب']
    (Or.inr ⟨['ب'], ' ', rfl, Or.inl rfl⟩)

end Abjad
